import Mathlib

/-!
Shallow embedding of the `invoice_qc` Python package (files
`src/invoice_qc/models.py`, `src/invoice_qc/validator.py`,
`src/invoice_qc/extractor.py`, `src/invoice_qc/utils.py`) together with
proofs about the behaviour its specification describes.

Modelling conventions:
* Python `float` values are embedded as exact rationals (`ℚ`); the
  validator's comparisons and tolerances are stated over `ℚ`.
* `datetime.date` is embedded as a year/month/day triple compared
  lexicographically, which is how Python compares valid dates.
* Fallible Python code (code that can raise) is embedded with `Except`.
* Python strings are Lean `String`s; `str.lower`/`str.upper` are embedded
  with `Char.toLower`/`Char.toUpper` (ASCII behaviour, which covers every
  string literal appearing in the repository).
-/

/-! ## Python primitives -/

/-- The whitespace characters recognised by Python's `str.strip` and by the
`\s` class of the `re` module for ASCII text. -/
def isPySpace (c : Char) : Bool :=
  c = ' ' || c = '\t' || c = '\n' || c = '\r' || c = '\x0b' || c = '\x0c'

/-- Python `str.strip()` on a character list. -/
def pyStrip (cs : List Char) : List Char :=
  ((cs.dropWhile isPySpace).reverse.dropWhile isPySpace).reverse

/-- Python `str.lower()` (ASCII model): lower-case every character. -/
def pyLower (s : String) : String := String.mk (s.data.map Char.toLower)

/-- Python `str.upper()` (ASCII model): upper-case every character. -/
def pyUpper (s : String) : String := String.mk (s.data.map Char.toUpper)

/-- `listStartsWith sub s` is true when `sub` is an initial segment of `s`. -/
def listStartsWith : List Char → List Char → Bool
  | [], _ => true
  | _ :: _, [] => false
  | c :: cs, d :: ds => c = d && listStartsWith cs ds

/-- Python's substring test `sub in s` (`listHasSub sub s`). -/
def listHasSub : List Char → List Char → Bool
  | sub, [] => listStartsWith sub []
  | sub, d :: ds => listStartsWith sub (d :: ds) || listHasSub sub ds

/-- Python's `sub in s` on strings. -/
def pyContains (sub s : String) : Bool := listHasSub sub.data s.data

/-- Embedding of `datetime.date`: a year/month/day triple.  Python compares
valid dates lexicographically on this triple. -/
structure PyDate where
  year : Int
  month : Int
  day : Int
deriving DecidableEq, Repr

/-- `datetime.date` ordering, `a <= b`. -/
def PyDate.le (a b : PyDate) : Prop :=
  a.year < b.year ∨ (a.year = b.year ∧
    (a.month < b.month ∨ (a.month = b.month ∧ a.day ≤ b.day)))

/-- `datetime.date` ordering, `a < b`. -/
def PyDate.lt (a b : PyDate) : Prop :=
  a.year < b.year ∨ (a.year = b.year ∧
    (a.month < b.month ∨ (a.month = b.month ∧ a.day < b.day)))

instance (a b : PyDate) : Decidable (PyDate.le a b) := by
  unfold PyDate.le; infer_instance

instance (a b : PyDate) : Decidable (PyDate.lt a b) := by
  unfold PyDate.lt; infer_instance

/-- Decimal rendering of a natural number, as Python's `str`/f-strings
produce it (used for the `line_{idx}_…` error codes). -/
def decRepr (n : Nat) : String :=
  if n = 0 then "0" else String.mk (((Nat.digits 10 n).map Nat.digitChar).reverse)

/-! ## Data model (`src/invoice_qc/models.py`) -/

/-- `models.LineItem` (the four pydantic fields). -/
structure LineItem where
  description : String
  quantity : ℚ
  unit_price : ℚ
  line_total : ℚ
deriving DecidableEq, Repr

/-- The `validate_line_total` pydantic validator of `LineItem`: it computes
`expected = quantity * unit_price` but returns the given value `v` on every
(float-typed) input — both branches of its tolerance test return `v`. -/
def validate_line_total (v quantity unit_price : ℚ) : ℚ :=
  let expected := quantity * unit_price
  if |expected - v| > (5 : ℚ) / 100 then v else v

/-- Pydantic construction of a `LineItem`: the `ge=0` constraints of
`quantity`, `unit_price` and `line_total` raise a `ValidationError` on
negative input; otherwise the record is built (with `validate_line_total`
applied to `line_total`).  Pydantic collects all field errors into one
exception; the embedding reports the first failing field, which raises
exactly when pydantic raises. -/
def mkLineItem (description : String) (quantity unit_price line_total : ℚ) :
    Except String LineItem :=
  if quantity < 0 then Except.error "ValidationError: quantity ge=0"
  else if unit_price < 0 then Except.error "ValidationError: unit_price ge=0"
  else if line_total < 0 then Except.error "ValidationError: line_total ge=0"
  else Except.ok
    { description := description
      quantity := quantity
      unit_price := unit_price
      line_total := validate_line_total line_total quantity unit_price }

deriving instance DecidableEq for Except

/-- `models.Invoice` (the fields read by the validator and extractor). -/
structure Invoice where
  invoice_number : String
  invoice_date : PyDate
  due_date : Option PyDate
  seller_name : String
  seller_address : Option String
  seller_tax_id : Option String
  buyer_name : String
  buyer_address : Option String
  buyer_tax_id : Option String
  currency : String
  net_total : ℚ
  tax_amount : ℚ
  gross_total : ℚ
  payment_terms : Option String
  line_items : List LineItem
deriving DecidableEq, Repr

/-- `models.InvoiceValidationResult`. -/
structure InvoiceValidationResult where
  invoice_id : String
  is_valid : Bool
  errors : List String
deriving DecidableEq, Repr

/-- `models.ValidationSummary`.  The `Counter`-backed `error_counts` dict is
embedded as a total function `String → Nat` (absent keys count 0, exactly
the `Counter` reading). -/
structure ValidationSummary where
  total_invoices : Nat
  valid_invoices : Nat
  invalid_invoices : Nat
  error_counts : String → Nat

/-! ## Validator (`src/invoice_qc/validator.py`) -/

/-- `validator._check_completeness`.  Python truthiness: a string is falsy
iff empty; a `datetime.date` object is always truthy, so the
`missing_field: invoice_date` branch can never fire for a date-typed
field — the test is kept in the embedding via `pyDateTruthy`. -/
def pyDateTruthy (_ : PyDate) : Bool := true

def _check_completeness (inv : Invoice) : List String :=
  (if inv.invoice_number = "" then ["missing_field: invoice_number"] else []) ++
  (if pyDateTruthy inv.invoice_date then [] else ["missing_field: invoice_date"]) ++
  (if inv.seller_name = "" then ["missing_field: seller_name"] else []) ++
  (if inv.buyer_name = "" then ["missing_field: buyer_name"] else [])

/-- `date(2000, 1, 1)` — the validator's `min_date`. -/
def minDate : PyDate := { year := 2000, month := 1, day := 1 }

/-- `date(2100, 1, 1)` — the validator's `max_date`. -/
def maxDate : PyDate := { year := 2100, month := 1, day := 1 }

/-- The f-string `f"format_error: line_{idx}_…"` family of error codes. -/
def lineNegErr (idx : Nat) (suffix : String) : String :=
  "format_error: line_" ++ decRepr idx ++ suffix

/-- The `for idx, item in enumerate(invoice.line_items)` loop of
`_check_format_and_ranges`, with `idx` starting at `n`. -/
def lineRangeErrorsFrom (n : Nat) : List LineItem → List String
  | [] => []
  | item :: rest =>
    (if item.quantity < 0 then [lineNegErr n "_quantity_negative"] else []) ++
    (if item.unit_price < 0 then [lineNegErr n "_unit_price_negative"] else []) ++
    (if item.line_total < 0 then [lineNegErr n "_line_total_negative"] else []) ++
    lineRangeErrorsFrom (n + 1) rest

/-- The date-range, currency and totals checks of
`_check_format_and_ranges` (lines 28–47 of `validator.py`), in source
order. -/
def formatFixedErrors (inv : Invoice) : List String :=
  (if ¬ (PyDate.le minDate inv.invoice_date ∧ PyDate.le inv.invoice_date maxDate)
    then ["format_error: invoice_date_out_of_range"] else []) ++
  (match inv.due_date with
    | some dd =>
      if ¬ (PyDate.le minDate dd ∧ PyDate.le dd maxDate)
        then ["format_error: due_date_out_of_range"] else []
    | none => []) ++
  (if ¬ (pyUpper inv.currency ∈ (["INR", "EUR", "USD", "GBP"] : List String))
    then ["format_error: currency_invalid"] else []) ++
  (if inv.net_total < 0 then ["format_error: net_total_negative"] else []) ++
  (if inv.tax_amount < 0 then ["format_error: tax_amount_negative"] else []) ++
  (if inv.gross_total < 0 then ["format_error: gross_total_negative"] else [])

/-- `validator._check_format_and_ranges`: the fixed checks followed by the
`enumerate`-indexed line-item loop. -/
def _check_format_and_ranges (inv : Invoice) : List String :=
  formatFixedErrors inv ++ lineRangeErrorsFrom 0 inv.line_items

/-- Sum of the `line_total` values of a list of line items. -/
def sumLineTotals (items : List LineItem) : ℚ :=
  (items.map LineItem.line_total).sum

/-- `validator._check_business_rules`.  `tolerance = 0.05`; `if
invoice.line_items:` is the Python truthiness test (non-empty list); `if
invoice.due_date and …` short-circuits on `None`. -/
def _check_business_rules (inv : Invoice) : List String :=
  (if inv.line_items ≠ [] then
    (if |sumLineTotals inv.line_items - inv.net_total| > (5 : ℚ) / 100
      then ["business_rule_failed: line_items_net_mismatch"] else [])
    else []) ++
  (if |(inv.net_total + inv.tax_amount) - inv.gross_total| > (5 : ℚ) / 100
    then ["business_rule_failed: totals_mismatch"] else []) ++
  (match inv.due_date with
    | some dd =>
      if PyDate.lt dd inv.invoice_date
        then ["business_rule_failed: due_before_invoice_date"] else []
    | none => [])

/-- The error list accumulated for one invoice by the first pass of
`validate_invoices` (lines 89–92 of `validator.py`). -/
def perRecordErrors (inv : Invoice) : List String :=
  _check_completeness inv ++ _check_format_and_ranges inv ++ _check_business_rules inv

/-- The `InvoiceValidationResult` built for one invoice by the first pass
(lines 97–103): `is_valid = len(errors) == 0`. -/
def perRecordResult (inv : Invoice) : InvoiceValidationResult :=
  { invoice_id := inv.invoice_number
    is_valid := perRecordErrors inv = []
    errors := perRecordErrors inv }

/-- `error_counter[e] += 1`. -/
def counterBump (ctr : String → Nat) (e : String) : String → Nat :=
  fun c => if c = e then ctr c + 1 else ctr c

/-- `for e in errors: error_counter[e] += 1`. -/
def counterAdd (ctr : String → Nat) (errs : List String) : String → Nat :=
  errs.foldl counterBump ctr

/-- The error counter accumulated over the first pass. -/
def firstPassCounter (invs : List Invoice) : String → Nat :=
  invs.foldl (fun ctr inv => counterAdd ctr (perRecordErrors inv)) (fun _ => 0)

/-- The duplicate key `(inv.seller_name.lower(), inv.invoice_number,
inv.invoice_date)` of `validate_invoices` (line 108). -/
def dupKey (inv : Invoice) : String × String × PyDate :=
  (pyLower inv.seller_name, inv.invoice_number, inv.invoice_date)

/-- The error code appended by the duplicate pass. -/
def dupError : String := "anomaly: duplicate_invoice"

/-- The mutation applied to a result flagged as a duplicate (lines
110–111): append `anomaly: duplicate_invoice`, force `is_valid = False`. -/
def flagDup (r : InvoiceValidationResult) : InvoiceValidationResult :=
  { r with errors := r.errors ++ [dupError], is_valid := false }

/-- The second (duplicate-detection) pass of `validate_invoices` (lines
105–114): a single walk over `zip(results, invoices)` threading the `seen`
dict (embedded as the list of its keys — the stored values are never read)
and the error counter. -/
def dupPass (seen : List (String × String × PyDate)) (ctr : String → Nat) :
    List (InvoiceValidationResult × Invoice) →
      List InvoiceValidationResult × (String → Nat)
  | [] => ([], ctr)
  | p :: rest =>
    if dupKey p.2 ∈ seen then
      let r := dupPass seen (counterBump ctr dupError) rest
      (flagDup p.1 :: r.1, r.2)
    else
      let r := dupPass (dupKey p.2 :: seen) ctr rest
      (p.1 :: r.1, r.2)

/-- `validator.validate_invoices`. -/
def validate_invoices (invs : List Invoice) :
    List InvoiceValidationResult × ValidationSummary :=
  let firstResults := invs.map perRecordResult
  let pr := dupPass [] (firstPassCounter invs) (firstResults.zip invs)
  let total := pr.1.length
  let invalid := pr.1.countP (fun r => !r.is_valid)
  let valid := total - invalid
  (pr.1,
    { total_invoices := total
      valid_invoices := valid
      invalid_invoices := invalid
      error_counts := pr.2 })

/-! ## Shared parsing utilities (`src/invoice_qc/utils.py`) -/

/-- Decimal value of a run of digit characters. -/
def digitsVal (ds : List Char) : Nat :=
  ds.foldl (fun a c => a * 10 + (c.toNat - 48)) 0

/-- The optional exponent suffix accepted by Python `float()`:
`(e|E)[+|-]digits` followed by end of input, or end of input (exponent 0).
Returns `none` when the remaining characters are not such a suffix. -/
def readExpPart : List Char → Option Int
  | [] => some 0
  | c :: r =>
    if c = 'e' || c = 'E' then
      let sr : Int × List Char :=
        match r with
        | '+' :: rr => (1, rr)
        | '-' :: rr => (-1, rr)
        | _ => (1, r)
      let ds := sr.2.takeWhile Char.isDigit
      let rest := sr.2.dropWhile Char.isDigit
      if ds.isEmpty || !rest.isEmpty then none
      else some (sr.1 * (digitsVal ds : Int))
    else none

/-- Python `float(str)` on already-stripped text, embedded over `ℚ`:
`[+|-] (digits [. digits] | . digits) [exponent]`.  The textual forms
`inf`/`nan` and digit-group underscores are not modelled (no such text
occurs in this repository's inputs of interest). -/
def pyFloatOfChars (cs : List Char) : Option ℚ :=
  let s : ℚ × List Char :=
    match cs with
    | '+' :: r => (1, r)
    | '-' :: r => (-1, r)
    | _ => (1, cs)
  let ip := s.2.takeWhile Char.isDigit
  let afterInt := s.2.dropWhile Char.isDigit
  match afterInt with
  | '.' :: r =>
    let fp := r.takeWhile Char.isDigit
    let afterFrac := r.dropWhile Char.isDigit
    if ip.isEmpty && fp.isEmpty then none
    else
      match readExpPart afterFrac with
      | some e =>
        some (s.1 * ((digitsVal ip : ℚ) + (digitsVal fp : ℚ) / (10 : ℚ) ^ fp.length)
          * (10 : ℚ) ^ e)
      | none => none
  | _ =>
    if ip.isEmpty then none
    else
      match readExpPart afterInt with
      | some e => some (s.1 * (digitsVal ip : ℚ) * (10 : ℚ) ^ e)
      | none => none

/-- `utils.parse_float_safe`: strip thousands-separator commas, trim
whitespace, parse as a float; unparseable input yields `none`. -/
def parse_float_safe (raw : String) : Option ℚ :=
  pyFloatOfChars (pyStrip ((raw.data).filter (fun c => c ≠ ',')))

/-- Python `x or default` on an optional float: `None` and `0.0` are falsy
and select the default. -/
def pyOrFloat (v : Option ℚ) (dflt : ℚ) : ℚ :=
  match v with
  | some x => if x = 0 then dflt else x
  | none => dflt

/-! ## Line-item extraction (`extractor.extract_line_items`) -/

/-- `re.split(r"\s{2,}", line)`: cut the line at every maximal run of two
or more whitespace characters (auxiliary recursion; `acc` holds the current
segment reversed). -/
def splitWsRunsAux : List Char → List Char → List (List Char)
  | [], acc => [acc.reverse]
  | [c], acc => splitWsRunsAux [] (c :: acc)
  | c :: c2 :: cs, acc =>
    if isPySpace c then
      if isPySpace c2 then
        acc.reverse :: splitWsRunsAux ((c2 :: cs).dropWhile isPySpace) []
      else splitWsRunsAux (c2 :: cs) (c :: acc)
    else splitWsRunsAux (c2 :: cs) (c :: acc)
termination_by l _ => l.length
decreasing_by
  all_goals simp_wf
  · have h : (List.dropWhile isPySpace (c2 :: cs)).length ≤ (c2 :: cs).length :=
      List.Sublist.length_le (List.dropWhile_sublist _)
    simp at h ⊢
    omega

/-- `re.split(r"\s{2,}", line)`. -/
def splitWsRuns (cs : List Char) : List (List Char) := splitWsRunsAux cs []

/-- The header test of `extract_line_items`: a line containing
`description` and (`qty` or `quantity`), case-insensitively. -/
def isItemsHeader (line : String) : Bool :=
  let l := pyLower line
  pyContains "description" l && (pyContains "qty" l || pyContains "quantity" l)

/-- The per-line loop of `extract_line_items` over the lines after the
header: stop at a totals line; split on whitespace runs; skip lines with
fewer than 3 segments or an empty description; otherwise construct a
`LineItem` (whose pydantic `ge=0` constraints can raise). -/
def lineItemsLoop : List String → Except String (List LineItem)
  | [] => Except.ok []
  | line :: rest =>
    let l := pyLower line
    if pyContains "subtotal" l || pyContains "net total" l || pyContains "total" l then
      Except.ok []
    else
      match splitWsRuns (pyStrip line.data) with
      | p0 :: p1 :: p2 :: ps =>
        let description := String.mk p0
        let qty := pyOrFloat (parse_float_safe (String.mk p1)) 0
        let unit := pyOrFloat (parse_float_safe (String.mk p2)) 0
        let lastSeg := String.mk (List.getLastD ps p2)
        let total := pyOrFloat (parse_float_safe lastSeg) (qty * unit)
        if description ≠ "" then
          match mkLineItem description qty unit total with
          | Except.error e => Except.error e
          | Except.ok item =>
            match lineItemsLoop rest with
            | Except.error e => Except.error e
            | Except.ok items => Except.ok (item :: items)
        else lineItemsLoop rest
      | _ => lineItemsLoop rest

/-- `extractor.extract_line_items`.  `str.splitlines` is embedded as
splitting on `\n` (the only line separator produced by `clean_text`). -/
def extract_line_items (text : String) : Except String (List LineItem) :=
  let lines := text.splitOn "\n"
  match lines.findIdx? isItemsHeader with
  | none => Except.ok []
  | some i => lineItemsLoop (lines.drop (i + 1))

/-! ## Invoice-number extraction (`extractor.extract_invoice_number`) -/

/-- The names bound at module level in `src/invoice_qc/extractor.py`: its
imports (`json`, `os`, `date`, typing names, `pdfplumber`, the model and
utility names) and its own function definitions.  `re` is *not* among
them — the other extractor functions each execute a local `import re`,
which binds `re` only inside those functions. -/
def extractorModuleGlobals : List String :=
  ["json", "os", "date", "List", "Dict", "Any", "Optional", "pdfplumber",
   "Invoice", "LineItem", "clean_text", "find_first_match", "parse_date",
   "parse_float_safe", "extract_text_from_pdf", "extract_invoice_number",
   "extract_dates", "extract_currency", "extract_parties", "extract_totals",
   "extract_payment_terms", "extract_line_items", "extract_invoice_from_pdf",
   "extract_from_dir", "write_invoices_to_json"]

/-- A (representative) list of Python builtin names; what matters for the
development is that `re` is not a builtin, which is true of every Python
release. -/
def pyBuiltinNames : List String :=
  ["abs", "all", "any", "bool", "dict", "enumerate", "float", "int", "len",
   "list", "max", "min", "open", "print", "range", "set", "str", "sum",
   "tuple", "zip", "Exception", "ValueError", "TypeError", "KeyError"]

/-- Resolution of a global name reference inside a function of
`extractor.py`: module globals, then builtins (the function body binds no
local of that name). -/
def pyGlobalLookupOk (name : String) : Bool :=
  extractorModuleGlobals.contains name || pyBuiltinNames.contains name

/-- Case-insensitive literal match: drop `pat` from the front of the
input, comparing characters through `Char.toLower`. -/
def dropCaseless : List Char → List Char → Option (List Char)
  | [], cs => some cs
  | _ :: _, [] => none
  | p :: ps, c :: cs =>
    if c.toLower = p.toLower then dropCaseless ps cs else none

/-- Longest run of non-whitespace characters at the front (`\S+`, greedy). -/
def takeNonSpace (cs : List Char) : List Char :=
  cs.takeWhile (fun c => !isPySpace c)

/-- The `\s*[:\-]?\s*(\S+)` tail of the invoice-number pattern, with the
regex backtracking on the optional `[:\-]`: if consuming the punctuation
leaves only whitespace, the engine retries with the punctuation left in
place so that `\S+` can capture it. -/
def tailMatch (rest : List Char) : Option (List Char) :=
  let a := rest.dropWhile isPySpace
  match a with
  | [] => none
  | c :: r =>
    if c = ':' || c = '-' then
      match r.dropWhile isPySpace with
      | [] => some (takeNonSpace a)
      | b => some (takeNonSpace b)
    else some (takeNonSpace a)

/-- The `(no\.?|number|#)` alternation followed by the tail, alternatives
tried left to right, `no\.?` greedily with backtracking into the tail. -/
def labelTail (rest : List Char) : Option (List Char) :=
  (Option.orElse
    (match dropCaseless ['n', 'o'] rest with
     | some r =>
       match r with
       | '.' :: r2 => Option.orElse (tailMatch r2) (fun _ => tailMatch r)
       | _ => tailMatch r
     | none => none)
    (fun _ =>
      Option.orElse
        (match dropCaseless ['n', 'u', 'm', 'b', 'e', 'r'] rest with
         | some r => tailMatch r
         | none => none)
        (fun _ =>
          match rest with
          | '#' :: r => tailMatch r
          | _ => none)))

/-- One attempt of the pattern
`(invoice\s*(no\.?|number|#)\s*[:\-]?\s*)(\S+)` anchored at the front of
`cs`, returning the third group. -/
def tryMatchAt (cs : List Char) : Option (List Char) :=
  match dropCaseless ['i', 'n', 'v', 'o', 'i', 'c', 'e'] cs with
  | some r => labelTail (r.dropWhile isPySpace)
  | none => none

/-- `re.search`: try the pattern at every start position, leftmost match
wins. -/
def invNumSearchFrom : List Char → Option (List Char)
  | [] => none
  | c :: cs => Option.orElse (tryMatchAt (c :: cs)) (fun _ => invNumSearchFrom cs)

/-- `extractor.extract_invoice_number`.  The call
`find_first_match(patterns, text, flags=re.IGNORECASE)` first evaluates the
argument `re.IGNORECASE`, which resolves the global name `re`; in
`extractor.py` no `import re` exists at module level (unlike the sibling
functions, which import it locally), so the resolution fails and the call
raises `NameError` before any searching happens.  The searching branch is
kept for fidelity to the written pattern. -/
def extract_invoice_number (text : String) : Except String (Option String) :=
  if pyGlobalLookupOk "re" then
    Except.ok ((invNumSearchFrom text.data).map (fun g => (String.mk g).trim))
  else
    Except.error "NameError: name re is not defined"

/-! ## Concrete records used by counterexamples and witnesses -/

/-- A fully valid invoice (no per-record errors). -/
def invOk : Invoice :=
  { invoice_number := "INV-7"
    invoice_date := { year := 2024, month := 2, day := 1 }
    due_date := none
    seller_name := "Acme"
    seller_address := none
    seller_tax_id := none
    buyer_name := "Beta"
    buyer_address := none
    buyer_tax_id := none
    currency := "USD"
    net_total := 100
    tax_amount := 18
    gross_total := 118
    payment_terms := none
    line_items := [] }

/-- Same duplicate key as `invOk` (seller name differs only in case), but
an invalid currency, so it fails a per-record check. -/
def invBadCurrency : Invoice :=
  { invOk with seller_name := "ACME", buyer_name := "Gamma", currency := "XYZ" }

/-- An invoice dated inside year 2100 but after `date(2100, 1, 1)`. -/
def invYear2100 : Invoice :=
  { invOk with
    invoice_number := "INV-6"
    invoice_date := { year := 2100, month := 6, day := 15 } }

/-- An invoice with a due date, used to instantiate the due-date clause. -/
def invWithDue : Invoice :=
  { invOk with due_date := some { year := 2024, month := 3, day := 1 } }

/-- Line items summing exactly to `net_total + 0.05`. -/
def invBoundary : Invoice :=
  { invOk with
    line_items := [{ description := "x", quantity := 1, unit_price := 1,
                     line_total := (10005 : ℚ) / 100 : LineItem }] }

/-- An invoice whose single line item satisfies the pydantic `ge=0`
constraints. -/
def invModelItems : Invoice :=
  { invOk with
    net_total := 10
    gross_total := 28
    line_items := [{ description := "a", quantity := 2, unit_price := 5,
                     line_total := 10 : LineItem }] }

/-- Extraction text whose line-item row has a parseable final segment `0`. -/
def c8Text : String :=
  "Description   Qty   Unit Price   Total\nWidget  3  5.00  0\nSubtotal 10"

/-- The single body line of `c8Text`, used to state the per-line claim. -/
def c8Line : String := "Widget  3  5.00  0"

/-! ## String infrastructure: decimal renderings and error-code shapes -/

theorem digitChar_fin_inj : ∀ a b : Fin 10, Nat.digitChar a = Nat.digitChar b → a = b := by
  decide

theorem digitChar_fin_ne_underscore : ∀ a : Fin 10, Nat.digitChar a ≠ '_' := by
  decide

theorem digitChar_fin_eq_zero : ∀ a : Fin 10, Nat.digitChar a = '0' → (a : Nat) = 0 := by
  decide

theorem map_digitChar_inj : ∀ (l₁ l₂ : List Nat), (∀ x ∈ l₁, x < 10) →
    (∀ x ∈ l₂, x < 10) → l₁.map Nat.digitChar = l₂.map Nat.digitChar → l₁ = l₂ := by
  intro l₁
  induction l₁ with
  | nil =>
    intro l₂ _ _ h
    cases l₂ with
    | nil => rfl
    | cons y ys => simp at h
  | cons x xs ih =>
    intro l₂ h₁ h₂ h
    cases l₂ with
    | nil => simp at h
    | cons y ys =>
      simp only [List.map_cons, List.cons.injEq] at h
      have hx : x < 10 := h₁ x (by simp)
      have hy : y < 10 := h₂ y (by simp)
      have hxy : x = y := by
        have := digitChar_fin_inj ⟨x, hx⟩ ⟨y, hy⟩ h.1
        simpa using congrArg Fin.val this
      have := ih ys (fun z hz => h₁ z (by simp [hz])) (fun z hz => h₂ z (by simp [hz])) h.2
      simp [hxy, this]

theorem decRepr_inj {m n : Nat} (h : decRepr m = decRepr n) : m = n := by
  unfold decRepr at h
  by_cases hm : m = 0 <;> by_cases hn : n = 0
  · omega
  · exfalso
    simp only [if_pos hm, if_neg hn] at h
    have h2 : (['0'] : List Char) = ((Nat.digits 10 n).map Nat.digitChar).reverse :=
      congrArg String.data h
    have h3 : (Nat.digits 10 n).map Nat.digitChar = ['0'] := by
      have := congrArg List.reverse h2
      simpa using this.symm
    cases hdig : Nat.digits 10 n with
    | nil => rw [hdig] at h3; simp at h3
    | cons d ds =>
      rw [hdig] at h3
      simp only [List.map_cons, List.cons.injEq] at h3
      obtain ⟨hd0, hds⟩ := h3
      have hdsnil : ds = [] := by simpa using hds
      have hd10 : d < 10 :=
        Nat.digits_lt_base (by norm_num) (by rw [hdig]; simp)
      have hd_eq : d = 0 := digitChar_fin_eq_zero ⟨d, hd10⟩ hd0
      have hofd := Nat.ofDigits_digits 10 n
      rw [hdig, hdsnil, hd_eq] at hofd
      simp [Nat.ofDigits] at hofd
      exact hn hofd.symm
  · exfalso
    simp only [if_pos hn, if_neg hm] at h
    have h2 : ((Nat.digits 10 m).map Nat.digitChar).reverse = (['0'] : List Char) :=
      congrArg String.data h
    have h3 : (Nat.digits 10 m).map Nat.digitChar = ['0'] := by
      have := congrArg List.reverse h2
      simpa using this
    cases hdig : Nat.digits 10 m with
    | nil => rw [hdig] at h3; simp at h3
    | cons d ds =>
      rw [hdig] at h3
      simp only [List.map_cons, List.cons.injEq] at h3
      obtain ⟨hd0, hds⟩ := h3
      have hdsnil : ds = [] := by simpa using hds
      have hd10 : d < 10 :=
        Nat.digits_lt_base (by norm_num) (by rw [hdig]; simp)
      have hd_eq : d = 0 := digitChar_fin_eq_zero ⟨d, hd10⟩ hd0
      have hofd := Nat.ofDigits_digits 10 m
      rw [hdig, hdsnil, hd_eq] at hofd
      simp [Nat.ofDigits] at hofd
      exact hm hofd.symm
  · simp only [if_neg hm, if_neg hn] at h
    have h2 : ((Nat.digits 10 m).map Nat.digitChar).reverse =
        ((Nat.digits 10 n).map Nat.digitChar).reverse := congrArg String.data h
    have hmap := List.reverse_injective h2
    have hdig := map_digitChar_inj _ _
      (fun z hz => Nat.digits_lt_base (by norm_num) hz)
      (fun z hz => Nat.digits_lt_base (by norm_num) hz) hmap
    exact Nat.digits_inj_iff.mp hdig

theorem decRepr_no_underscore {n : Nat} {c : Char} (h : c ∈ (decRepr n).data) :
    c ≠ '_' := by
  unfold decRepr at h
  by_cases hn : n = 0
  · simp only [if_pos hn] at h
    have h' : c ∈ (['0'] : List Char) := h
    have : c = '0' := by simpa using h'
    exact this ▸ (by decide : ('0' : Char) ≠ '_')
  · simp only [if_neg hn] at h
    have h' : c ∈ ((Nat.digits 10 n).map Nat.digitChar).reverse := h
    simp only [List.mem_reverse, List.mem_map] at h'
    rcases h' with ⟨d, hd, hc⟩
    have hd10 : d < 10 := Nat.digits_lt_base (by norm_num) hd
    exact hc ▸ digitChar_fin_ne_underscore ⟨d, hd10⟩

theorem sep_append_inj : ∀ (a b s t : List Char), (∀ c ∈ a, c ≠ '_') →
    (∀ c ∈ b, c ≠ '_') → s.head? = some '_' → t.head? = some '_' →
    a ++ s = b ++ t → a = b ∧ s = t := by
  intro a
  induction a with
  | nil =>
    intro b s t _ hb hs ht h
    cases b with
    | nil => simpa using h
    | cons y ys =>
      exfalso
      simp only [List.nil_append, List.cons_append] at h
      rw [h] at hs
      simp only [List.head?_cons, Option.some.injEq] at hs
      exact hb y (by simp) hs
  | cons x xs ih =>
    intro b s t ha hb hs ht h
    cases b with
    | nil =>
      exfalso
      simp only [List.nil_append, List.cons_append] at h
      rw [← h] at ht
      simp only [List.head?_cons, Option.some.injEq] at ht
      exact ha x (by simp) ht
    | cons y ys =>
      simp only [List.cons_append, List.cons.injEq] at h
      obtain ⟨hxy, hrest⟩ := h
      have := ih ys s t (fun c hc => ha c (by simp [hc]))
        (fun c hc => hb c (by simp [hc])) hs ht hrest
      simp [hxy, this.1, this.2]

theorem lineNegErr_data (i : Nat) (suffix : String) :
    (lineNegErr i suffix).data =
      "format_error: line_".data ++ ((decRepr i).data ++ suffix.data) := by
  simp [lineNegErr, String.data_append]

theorem lineNegErr_inj {i j : Nat} {s t : String} (hs : s.data.head? = some '_')
    (ht : t.data.head? = some '_') (h : lineNegErr i s = lineNegErr j t) :
    i = j ∧ s = t := by
  have hd := congrArg String.data h
  rw [lineNegErr_data, lineNegErr_data] at hd
  have hd2 := List.append_cancel_left hd
  have := sep_append_inj _ _ _ _ (fun c hc => decRepr_no_underscore hc)
    (fun c hc => decRepr_no_underscore hc) hs ht hd2
  exact ⟨decRepr_inj (String.ext this.1), String.ext this.2⟩

theorem lineNegErr_get14 (i : Nat) (suffix : String) :
    (lineNegErr i suffix).data[14]? = some 'l' := by
  rw [lineNegErr_data, List.getElem?_append,
    if_pos (by decide : (14 : Nat) < "format_error: line_".data.length)]
  rfl

theorem lineNegErr_head (i : Nat) (suffix : String) :
    (lineNegErr i suffix).data.head? = some 'f' := by
  rw [lineNegErr_data]
  rfl

/-! ## Membership and nodup facts about the per-record error lists -/

theorem mem_if_nil {α} {x : α} {c : Prop} [Decidable c] {l : List α} :
    x ∈ (if c then l else []) ↔ c ∧ x ∈ l := by
  split <;> simp_all

theorem mem_guard {α} {x y : α} {c : Prop} [Decidable c] :
    x ∈ (if c then [y] else []) ↔ c ∧ x = y := by
  split <;> simp_all

theorem mem_guard_neg {α} {x y : α} {c : Prop} [Decidable c] :
    x ∈ (if c then [] else [y]) ↔ ¬ c ∧ x = y := by
  split <;> simp_all

theorem guard_sublist {α} {c : Prop} [Decidable c] {y : α} :
    List.Sublist (if c then [y] else []) [y] := by
  split <;> simp

theorem guard_neg_sublist {α} {c : Prop} [Decidable c] {y : α} :
    List.Sublist (if c then [] else [y]) [y] := by
  split <;> simp

theorem completeness_sublist (inv : Invoice) :
    List.Sublist (_check_completeness inv)
      ["missing_field: invoice_number", "missing_field: invoice_date",
       "missing_field: seller_name", "missing_field: buyer_name"] := by
  unfold _check_completeness
  show List.Sublist _
    ((((["missing_field: invoice_number"] ++ ["missing_field: invoice_date"]) ++
       ["missing_field: seller_name"]) ++ ["missing_field: buyer_name"]))
  exact List.Sublist.append
    (List.Sublist.append
      (List.Sublist.append guard_sublist guard_neg_sublist) guard_sublist)
    guard_sublist

theorem mem_completeness {inv : Invoice} {e : String}
    (h : e ∈ _check_completeness inv) :
    e ∈ ["missing_field: invoice_number", "missing_field: invoice_date",
         "missing_field: seller_name", "missing_field: buyer_name"] :=
  (completeness_sublist inv).subset h

theorem nodup_completeness (inv : Invoice) : (_check_completeness inv).Nodup := by
  have h4 : List.Nodup
      ["missing_field: invoice_number", "missing_field: invoice_date",
       "missing_field: seller_name", "missing_field: buyer_name"] := by decide
  exact List.Nodup.sublist (completeness_sublist inv) h4

theorem head_completeness {inv : Invoice} {e : String}
    (h : e ∈ _check_completeness inv) : e.data.head? = some 'm' := by
  have hm := mem_completeness h
  simp only [List.mem_cons, List.not_mem_nil, or_false] at hm
  rcases hm with rfl | rfl | rfl | rfl <;> rfl

theorem mem_lineRange : ∀ (items : List LineItem) (n : Nat) (e : String),
    e ∈ lineRangeErrorsFrom n items →
    ∃ i, n ≤ i ∧ (e = lineNegErr i "_quantity_negative" ∨
      e = lineNegErr i "_unit_price_negative" ∨
      e = lineNegErr i "_line_total_negative") := by
  intro items
  induction items with
  | nil =>
    intro n e h
    simp [lineRangeErrorsFrom] at h
  | cons item rest ih =>
    intro n e h
    simp only [lineRangeErrorsFrom, List.mem_append, mem_guard] at h
    rcases h with ((⟨_, rfl⟩ | ⟨_, rfl⟩) | ⟨_, rfl⟩) | h
    · exact ⟨n, le_refl n, Or.inl rfl⟩
    · exact ⟨n, le_refl n, Or.inr (Or.inl rfl)⟩
    · exact ⟨n, le_refl n, Or.inr (Or.inr rfl)⟩
    · rcases ih (n + 1) e h with ⟨i, hi, hcase⟩
      exact ⟨i, by omega, hcase⟩

theorem head_lineRange {items : List LineItem} {n : Nat} {e : String}
    (h : e ∈ lineRangeErrorsFrom n items) : e.data.head? = some 'f' := by
  rcases mem_lineRange items n e h with ⟨i, _, hcase⟩
  rcases hcase with rfl | rfl | rfl <;> exact lineNegErr_head ..

theorem fixed_notin_lineRange {e : String} (h14 : e.data[14]? ≠ some 'l')
    {items : List LineItem} {n : Nat} : e ∉ lineRangeErrorsFrom n items := by
  intro hmem
  rcases mem_lineRange items n e hmem with ⟨i, _, hcase⟩
  rcases hcase with rfl | rfl | rfl <;> exact h14 (lineNegErr_get14 ..)

theorem lineNegErr_ne_of_idx {i j : Nat} {s t : String}
    (hs : s.data.head? = some '_') (ht : t.data.head? = some '_')
    (hij : i ≠ j) : lineNegErr i s ≠ lineNegErr j t := by
  intro h
  exact hij (lineNegErr_inj hs ht h).1

theorem lineNegErr_ne_of_suffix {i j : Nat} {s t : String}
    (hs : s.data.head? = some '_') (ht : t.data.head? = some '_')
    (hst : s ≠ t) : lineNegErr i s ≠ lineNegErr j t := by
  intro h
  exact hst (lineNegErr_inj hs ht h).2

theorem nodup_lineTriple (n : Nat) :
    List.Nodup [lineNegErr n "_quantity_negative", lineNegErr n "_unit_price_negative",
      lineNegErr n "_line_total_negative"] := by
  rw [List.nodup_cons, List.nodup_cons]
  refine ⟨?_, ?_, by simp⟩
  · intro hmem
    simp only [List.mem_cons, List.not_mem_nil, or_false] at hmem
    rcases hmem with h | h
    · refine absurd h (lineNegErr_ne_of_suffix ?_ ?_ (by decide)) <;> rfl
    · refine absurd h (lineNegErr_ne_of_suffix ?_ ?_ (by decide)) <;> rfl
  · intro hmem
    simp only [List.mem_cons, List.not_mem_nil, or_false] at hmem
    refine absurd hmem (lineNegErr_ne_of_suffix ?_ ?_ (by decide)) <;> rfl

theorem lineChunk_sublist (item : LineItem) (n : Nat) :
    List.Sublist
      ((if item.quantity < 0 then [lineNegErr n "_quantity_negative"] else []) ++
       ((if item.unit_price < 0 then [lineNegErr n "_unit_price_negative"] else []) ++
        (if item.line_total < 0 then [lineNegErr n "_line_total_negative"] else [])))
      [lineNegErr n "_quantity_negative", lineNegErr n "_unit_price_negative",
       lineNegErr n "_line_total_negative"] := by
  show List.Sublist _
    ([lineNegErr n "_quantity_negative"] ++ ([lineNegErr n "_unit_price_negative"] ++
     [lineNegErr n "_line_total_negative"]))
  exact List.Sublist.append guard_sublist (List.Sublist.append guard_sublist guard_sublist)

theorem nodup_lineRange (items : List LineItem) :
    ∀ n, (lineRangeErrorsFrom n items).Nodup := by
  induction items with
  | nil => intro n; simp [lineRangeErrorsFrom]
  | cons item rest ih =>
    intro n
    have hshape : lineRangeErrorsFrom n (item :: rest) =
        ((if item.quantity < 0 then [lineNegErr n "_quantity_negative"] else []) ++
         ((if item.unit_price < 0 then [lineNegErr n "_unit_price_negative"] else []) ++
          (if item.line_total < 0 then [lineNegErr n "_line_total_negative"] else []))) ++
        lineRangeErrorsFrom (n + 1) rest := by
      simp [lineRangeErrorsFrom]
    rw [hshape]
    refine List.Nodup.append ?_ (ih (n + 1)) ?_
    · exact List.Nodup.sublist (lineChunk_sublist item n) (nodup_lineTriple n)
    · intro a ha hmem
      have ha3 := (lineChunk_sublist item n).subset ha
      rcases mem_lineRange rest (n + 1) a hmem with ⟨i, hi, hcase⟩
      simp only [List.mem_cons, List.not_mem_nil, or_false] at ha3
      have hne : n ≠ i := by omega
      rcases ha3 with rfl | rfl | rfl <;> rcases hcase with h | h | h <;>
        (refine absurd h (lineNegErr_ne_of_idx ?_ ?_ hne) <;> rfl)

theorem format_fixed_sublist (inv : Invoice) :
    List.Sublist (formatFixedErrors inv)
      ["format_error: invoice_date_out_of_range", "format_error: due_date_out_of_range",
       "format_error: currency_invalid", "format_error: net_total_negative",
       "format_error: tax_amount_negative", "format_error: gross_total_negative"] := by
  unfold formatFixedErrors
  show List.Sublist _
    ((((((["format_error: invoice_date_out_of_range"] ++
      ["format_error: due_date_out_of_range"]) ++ ["format_error: currency_invalid"]) ++
      ["format_error: net_total_negative"]) ++ ["format_error: tax_amount_negative"]) ++
      ["format_error: gross_total_negative"]))
  refine List.Sublist.append (List.Sublist.append (List.Sublist.append
    (List.Sublist.append (List.Sublist.append guard_sublist ?_) guard_sublist)
    guard_sublist) guard_sublist) guard_sublist
  cases inv.due_date
  · simp
  · exact guard_sublist

theorem mem_format {inv : Invoice} {e : String} (h : e ∈ _check_format_and_ranges inv) :
    e ∈ ["format_error: invoice_date_out_of_range", "format_error: due_date_out_of_range",
         "format_error: currency_invalid", "format_error: net_total_negative",
         "format_error: tax_amount_negative", "format_error: gross_total_negative"] ∨
    e ∈ lineRangeErrorsFrom 0 inv.line_items := by
  unfold _check_format_and_ranges at h
  rcases List.mem_append.mp h with h | h
  · exact Or.inl ((format_fixed_sublist inv).subset h)
  · exact Or.inr h

theorem head_format {inv : Invoice} {e : String}
    (h : e ∈ _check_format_and_ranges inv) : e.data.head? = some 'f' := by
  rcases mem_format h with h6 | hl
  · simp only [List.mem_cons, List.not_mem_nil, or_false] at h6
    rcases h6 with rfl | rfl | rfl | rfl | rfl | rfl <;> rfl
  · exact head_lineRange hl

theorem nodup_format (inv : Invoice) : (_check_format_and_ranges inv).Nodup := by
  unfold _check_format_and_ranges
  refine List.Nodup.append ?_ (nodup_lineRange _ 0) ?_
  · have h6 : List.Nodup
        ["format_error: invoice_date_out_of_range", "format_error: due_date_out_of_range",
         "format_error: currency_invalid", "format_error: net_total_negative",
         "format_error: tax_amount_negative", "format_error: gross_total_negative"] := by
      decide
    exact List.Nodup.sublist (format_fixed_sublist inv) h6
  · intro a ha hline
    have h6 := (format_fixed_sublist inv).subset ha
    simp only [List.mem_cons, List.not_mem_nil, or_false] at h6
    rcases h6 with rfl | rfl | rfl | rfl | rfl | rfl <;>
      exact fixed_notin_lineRange (by decide) hline

theorem business_sublist (inv : Invoice) :
    List.Sublist (_check_business_rules inv)
      ["business_rule_failed: line_items_net_mismatch", "business_rule_failed: totals_mismatch",
       "business_rule_failed: due_before_invoice_date"] := by
  unfold _check_business_rules
  show List.Sublist _
    ((["business_rule_failed: line_items_net_mismatch"] ++
      ["business_rule_failed: totals_mismatch"]) ++
      ["business_rule_failed: due_before_invoice_date"])
  refine List.Sublist.append (List.Sublist.append ?_ guard_sublist) ?_
  · split
    · exact guard_sublist
    · simp
  · cases inv.due_date
    · simp
    · exact guard_sublist

theorem mem_business {inv : Invoice} {e : String}
    (h : e ∈ _check_business_rules inv) :
    e ∈ ["business_rule_failed: line_items_net_mismatch",
         "business_rule_failed: totals_mismatch",
         "business_rule_failed: due_before_invoice_date"] :=
  (business_sublist inv).subset h

theorem nodup_business (inv : Invoice) : (_check_business_rules inv).Nodup := by
  have h3 : List.Nodup
      ["business_rule_failed: line_items_net_mismatch", "business_rule_failed: totals_mismatch",
       "business_rule_failed: due_before_invoice_date"] := by decide
  exact List.Nodup.sublist (business_sublist inv) h3

theorem head_business {inv : Invoice} {e : String}
    (h : e ∈ _check_business_rules inv) : e.data.head? = some 'b' := by
  have hm := mem_business h
  simp only [List.mem_cons, List.not_mem_nil, or_false] at hm
  rcases hm with rfl | rfl | rfl <;> rfl

theorem nodup_perRecordErrors (inv : Invoice) : (perRecordErrors inv).Nodup := by
  unfold perRecordErrors
  refine List.Nodup.append
    (List.Nodup.append (nodup_completeness inv) (nodup_format inv) ?_)
    (nodup_business inv) ?_
  · intro a ha hb
    have h1 := head_completeness ha
    have h2 := head_format hb
    rw [h1] at h2
    exact absurd h2 (by decide)
  · intro a ha hb
    have h2 := head_business hb
    rcases List.mem_append.mp ha with h | h
    · have h1 := head_completeness h
      rw [h1] at h2
      exact absurd h2 (by decide)
    · have h1 := head_format h
      rw [h1] at h2
      exact absurd h2 (by decide)

theorem dupError_notin_perRecord (inv : Invoice) : dupError ∉ perRecordErrors inv := by
  intro h
  unfold perRecordErrors at h
  rcases List.mem_append.mp h with h | h
  · rcases List.mem_append.mp h with h | h
    · exact absurd (head_completeness h) (by decide)
    · exact absurd (head_format h) (by decide)
  · exact absurd (head_business h) (by decide)

theorem nodup_perRecord_dup (inv : Invoice) :
    (perRecordErrors inv ++ [dupError]).Nodup := by
  refine List.Nodup.append (nodup_perRecordErrors inv) (by simp) ?_
  intro a ha hb
  simp only [List.mem_singleton] at hb
  subst hb
  exact dupError_notin_perRecord inv ha

/-! ## Structure of the two validation passes -/

theorem dupPass_length : ∀ (pairs : List (InvoiceValidationResult × Invoice))
    (seen : List (String × String × PyDate)) (ctr : String → Nat),
    (dupPass seen ctr pairs).1.length = pairs.length := by
  intro pairs
  induction pairs with
  | nil => intro seen ctr; simp [dupPass]
  | cons p rest ih =>
    intro seen ctr
    by_cases hk : dupKey p.2 ∈ seen
    · simp [dupPass, hk, ih]
    · simp [dupPass, hk, ih]

theorem dupPass_mem : ∀ (pairs : List (InvoiceValidationResult × Invoice))
    (seen : List (String × String × PyDate)) (ctr : String → Nat)
    (r : InvoiceValidationResult), r ∈ (dupPass seen ctr pairs).1 →
    ∃ p ∈ pairs, r = p.1 ∨ r = flagDup p.1 := by
  intro pairs
  induction pairs with
  | nil => intro seen ctr r h; simp [dupPass] at h
  | cons p rest ih =>
    intro seen ctr r h
    by_cases hk : dupKey p.2 ∈ seen <;> simp only [dupPass, hk, if_pos, if_neg,
      not_false_iff, List.mem_cons] at h
    · rcases h with rfl | h
      · exact ⟨p, by simp, Or.inr rfl⟩
      · rcases ih _ _ _ h with ⟨q, hq, hcase⟩
        exact ⟨q, by simp [hq], hcase⟩
    · rcases h with rfl | h
      · exact ⟨p, by simp, Or.inl rfl⟩
      · rcases ih _ _ _ h with ⟨q, hq, hcase⟩
        exact ⟨q, by simp [hq], hcase⟩

theorem mem_zipMap : ∀ (invs : List Invoice) (p : InvoiceValidationResult × Invoice),
    p ∈ (invs.map perRecordResult).zip invs →
    p.1 = perRecordResult p.2 ∧ p.2 ∈ invs := by
  intro invs
  induction invs with
  | nil => intro p h; simp at h
  | cons inv rest ih =>
    intro p h
    simp only [List.map_cons, List.zip_cons_cons, List.mem_cons] at h
    rcases h with rfl | h
    · exact ⟨rfl, by simp⟩
    · rcases ih p h with ⟨h1, h2⟩
      exact ⟨h1, by simp [h2]⟩

theorem results_shape {invs : List Invoice} {r : InvoiceValidationResult}
    (h : r ∈ (validate_invoices invs).1) :
    ∃ inv ∈ invs, r = perRecordResult inv ∨ r = flagDup (perRecordResult inv) := by
  unfold validate_invoices at h
  simp only at h
  rcases dupPass_mem _ _ _ _ h with ⟨p, hp, hcase⟩
  rcases mem_zipMap _ _ hp with ⟨h1, h2⟩
  exact ⟨p.2, h2, by rw [← h1]; exact hcase⟩

theorem pairs_getElem? (invs : List Invoice) : ∀ (i : Nat),
    ((invs.map perRecordResult).zip invs)[i]? =
      invs[i]?.map (fun inv => (perRecordResult inv, inv)) := by
  induction invs with
  | nil => intro i; simp
  | cons inv rest ih =>
    intro i
    cases i with
    | zero => simp
    | succ j => simpa using ih j

theorem pairs_take_keys (invs : List Invoice) : ∀ (i : Nat),
    ((((invs.map perRecordResult).zip invs).take i).map (fun p => dupKey p.2)) =
      (invs.take i).map dupKey := by
  induction invs with
  | nil => intro i; simp
  | cons inv rest ih =>
    intro i
    cases i with
    | zero => simp
    | succ j => simpa using ih j

theorem dupPass_getElem? : ∀ (pairs : List (InvoiceValidationResult × Invoice))
    (seen : List (String × String × PyDate)) (ctr : String → Nat) (i : Nat),
    (dupPass seen ctr pairs).1[i]? = pairs[i]?.map (fun p =>
      if dupKey p.2 ∈ seen ∨ dupKey p.2 ∈ (pairs.take i).map (fun q => dupKey q.2)
      then flagDup p.1 else p.1) := by
  intro pairs
  induction pairs with
  | nil => intro seen ctr i; simp [dupPass]
  | cons p rest ih =>
    intro seen ctr i
    by_cases hk : dupKey p.2 ∈ seen
    · simp only [dupPass, hk, if_pos]
      cases i with
      | zero => simp [hk]
      | succ j =>
        simp only [List.getElem?_cons_succ, List.take_succ_cons, List.map_cons]
        rw [ih]
        cases hq : rest[j]? with
        | none => rfl
        | some q =>
          simp only [Option.map_some']
          refine congrArg some (if_congr ?_ rfl rfl)
          simp only [List.mem_cons]
          constructor
          · intro h; tauto
          · intro h
            rcases h with h | h | h
            · exact Or.inl h
            · exact Or.inl (h ▸ hk)
            · exact Or.inr h
    · simp only [dupPass, hk, if_neg, not_false_iff]
      cases i with
      | zero => simp [hk]
      | succ j =>
        simp only [List.getElem?_cons_succ, List.take_succ_cons, List.map_cons]
        rw [ih]
        cases hq : rest[j]? with
        | none => rfl
        | some q =>
          simp only [Option.map_some']
          refine congrArg some (if_congr ?_ rfl rfl)
          simp only [List.mem_cons]
          tauto

/-! ## The error counter -/

theorem counterAdd_apply : ∀ (errs : List String) (ctr : String → Nat) (c : String),
    counterAdd ctr errs c = ctr c + errs.count c := by
  intro errs
  induction errs with
  | nil => intro ctr c; simp [counterAdd]
  | cons e es ih =>
    intro ctr c
    have hstep : counterAdd ctr (e :: es) = counterAdd (counterBump ctr e) es := by
      simp [counterAdd]
    rw [hstep, ih]
    unfold counterBump
    by_cases hc : c = e
    · simp [hc, List.count_cons]
      omega
    · simp [hc, List.count_cons, Ne.symm hc]

theorem foldl_counterAdd_apply : ∀ (invs : List Invoice) (ctr : String → Nat) (c : String),
    (invs.foldl (fun ctr inv => counterAdd ctr (perRecordErrors inv)) ctr) c =
      ctr c + (invs.map (fun inv => (perRecordErrors inv).count c)).sum := by
  intro invs
  induction invs with
  | nil => intro ctr c; simp
  | cons inv rest ih =>
    intro ctr c
    simp only [List.foldl_cons, List.map_cons, List.sum_cons]
    rw [ih, counterAdd_apply]
    omega

theorem firstPassCounter_apply (invs : List Invoice) (c : String) :
    firstPassCounter invs c =
      (invs.map (fun inv => (perRecordErrors inv).count c)).sum := by
  unfold firstPassCounter
  rw [foldl_counterAdd_apply]
  omega

theorem dupPass_counter : ∀ (pairs : List (InvoiceValidationResult × Invoice))
    (seen : List (String × String × PyDate)) (ctr : String → Nat) (c : String),
    (dupPass seen ctr pairs).2 c + (pairs.map (fun p => p.1.errors.count c)).sum =
      ctr c + ((dupPass seen ctr pairs).1.map (fun r => r.errors.count c)).sum := by
  intro pairs
  induction pairs with
  | nil => intro seen ctr c; simp [dupPass]
  | cons p rest ih =>
    intro seen ctr c
    by_cases hk : dupKey p.2 ∈ seen
    · simp only [dupPass, hk, if_pos, List.map_cons, List.sum_cons]
      have hih := ih seen (counterBump ctr dupError) c
      have hflag : (flagDup p.1).errors.count c =
          p.1.errors.count c + (if c = dupError then 1 else 0) := by
        unfold flagDup
        simp only [List.count_append]
        by_cases hc : c = dupError
        · simp [hc]
        · simp [List.count_singleton, hc, Ne.symm hc]
      have hbump : counterBump ctr dupError c =
          ctr c + (if c = dupError then 1 else 0) := by
        unfold counterBump
        by_cases hc : c = dupError <;> simp [hc]
      rw [hflag]
      rw [hbump] at hih
      omega
    · simp only [dupPass, hk, if_neg, not_false_iff, List.map_cons, List.sum_cons]
      have hih := ih (dupKey p.2 :: seen) ctr c
      omega

/-! ## Membership characterisations of individual error codes -/

theorem fixed_invoice_date_iff (inv : Invoice) :
    "format_error: invoice_date_out_of_range" ∈ formatFixedErrors inv ↔
      ¬ (PyDate.le minDate inv.invoice_date ∧ PyDate.le inv.invoice_date maxDate) := by
  unfold formatFixedErrors
  simp only [List.mem_append, mem_guard]
  constructor
  · intro h
    rcases h with ((((h | h) | h) | h) | h) | h
    · exact h.1
    · exfalso
      cases hdd : inv.due_date with
      | none => rw [hdd] at h; simp at h
      | some dd =>
        rw [hdd] at h
        exact absurd (mem_guard.mp h).2 (by decide)
    · exact absurd h.2 (by decide)
    · exact absurd h.2 (by decide)
    · exact absurd h.2 (by decide)
    · exact absurd h.2 (by decide)
  · intro h
    exact Or.inl (Or.inl (Or.inl (Or.inl (Or.inl ⟨h, trivial⟩))))

theorem fixed_due_date_iff (inv : Invoice) (dd : PyDate) (hdd : inv.due_date = some dd) :
    "format_error: due_date_out_of_range" ∈ formatFixedErrors inv ↔
      ¬ (PyDate.le minDate dd ∧ PyDate.le dd maxDate) := by
  unfold formatFixedErrors
  rw [hdd]
  simp only [List.mem_append, mem_guard]
  constructor
  · intro h
    rcases h with ((((h | h) | h) | h) | h) | h
    · exact absurd h.2 (by decide)
    · exact h.1
    · exact absurd h.2 (by decide)
    · exact absurd h.2 (by decide)
    · exact absurd h.2 (by decide)
    · exact absurd h.2 (by decide)
  · intro h
    exact Or.inl (Or.inl (Or.inl (Or.inl (Or.inr ⟨h, trivial⟩))))

theorem fixed_due_date_none (inv : Invoice) (hdd : inv.due_date = none) :
    "format_error: due_date_out_of_range" ∉ formatFixedErrors inv := by
  unfold formatFixedErrors
  rw [hdd]
  simp only [List.mem_append, mem_guard]
  intro h
  rcases h with ((((h | h) | h) | h) | h) | h
  · exact absurd h.2 (by decide)
  · simp at h
  · exact absurd h.2 (by decide)
  · exact absurd h.2 (by decide)
  · exact absurd h.2 (by decide)
  · exact absurd h.2 (by decide)

theorem format_invoice_date_iff (inv : Invoice) :
    "format_error: invoice_date_out_of_range" ∈ _check_format_and_ranges inv ↔
      ¬ (PyDate.le minDate inv.invoice_date ∧ PyDate.le inv.invoice_date maxDate) := by
  unfold _check_format_and_ranges
  rw [List.mem_append]
  constructor
  · intro h
    rcases h with h | h
    · exact (fixed_invoice_date_iff inv).mp h
    · exact absurd h (fixed_notin_lineRange (by decide))
  · intro h
    exact Or.inl ((fixed_invoice_date_iff inv).mpr h)

theorem format_due_date_iff (inv : Invoice) (dd : PyDate) (hdd : inv.due_date = some dd) :
    "format_error: due_date_out_of_range" ∈ _check_format_and_ranges inv ↔
      ¬ (PyDate.le minDate dd ∧ PyDate.le dd maxDate) := by
  unfold _check_format_and_ranges
  rw [List.mem_append]
  constructor
  · intro h
    rcases h with h | h
    · exact (fixed_due_date_iff inv dd hdd).mp h
    · exact absurd h (fixed_notin_lineRange (by decide))
  · intro h
    exact Or.inl ((fixed_due_date_iff inv dd hdd).mpr h)

theorem format_due_date_none (inv : Invoice) (hdd : inv.due_date = none) :
    "format_error: due_date_out_of_range" ∉ _check_format_and_ranges inv := by
  unfold _check_format_and_ranges
  rw [List.mem_append]
  intro h
  rcases h with h | h
  · exact fixed_due_date_none inv hdd h
  · exact fixed_notin_lineRange (by decide) h

theorem business_mismatch_iff (inv : Invoice) (hitems : inv.line_items ≠ []) :
    "business_rule_failed: line_items_net_mismatch" ∈ _check_business_rules inv ↔
      |sumLineTotals inv.line_items - inv.net_total| > (5 : ℚ) / 100 := by
  unfold _check_business_rules
  simp only [List.mem_append, mem_if_nil, mem_guard]
  constructor
  · intro h
    rcases h with (h | h) | h
    · exact h.2.1
    · exact absurd h.2 (by decide)
    · exfalso
      cases hdd : inv.due_date with
      | none => rw [hdd] at h; simp at h
      | some dd =>
        rw [hdd] at h
        exact absurd (mem_guard.mp h).2 (by decide)
  · intro h
    exact Or.inl (Or.inl ⟨hitems, h, by simp⟩)

/-! ## Non-negative line items silence the line error branch -/

theorem ite_self_rat {c : Prop} [Decidable c] (v : ℚ) : (if c then v else v) = v := by
  split <;> rfl

theorem validate_line_total_id (v quantity unit_price : ℚ) :
    validate_line_total v quantity unit_price = v := by
  unfold validate_line_total
  exact ite_self_rat v

theorem mkLineItem_ok_nonneg {d : String} {q u t : ℚ} {li : LineItem}
    (h : mkLineItem d q u t = Except.ok li) :
    0 ≤ li.quantity ∧ 0 ≤ li.unit_price ∧ 0 ≤ li.line_total := by
  unfold mkLineItem at h
  by_cases hq : q < 0
  · rw [if_pos hq] at h; exact absurd h (by simp)
  · rw [if_neg hq] at h
    by_cases hu : u < 0
    · rw [if_pos hu] at h; exact absurd h (by simp)
    · rw [if_neg hu] at h
      by_cases ht : t < 0
      · rw [if_pos ht] at h; exact absurd h (by simp)
      · rw [if_neg ht] at h
        simp only [Except.ok.injEq] at h
        subst h
        refine ⟨by simpa using not_lt.mp hq, by simpa using not_lt.mp hu, ?_⟩
        simp only [validate_line_total_id]
        exact not_lt.mp ht

theorem lineRange_nil_of_nonneg :
    ∀ (items : List LineItem), (∀ li ∈ items, 0 ≤ li.quantity ∧ 0 ≤ li.unit_price ∧
      0 ≤ li.line_total) → ∀ n, lineRangeErrorsFrom n items = [] := by
  intro items
  induction items with
  | nil => intro _ n; simp [lineRangeErrorsFrom]
  | cons item rest ih =>
    intro h n
    have hitem := h item (by simp)
    have hrest := ih (fun li hli => h li (by simp [hli]))
    simp only [lineRangeErrorsFrom, hrest, List.append_nil]
    rw [if_neg (not_lt.mpr hitem.1), if_neg (not_lt.mpr hitem.2.1),
      if_neg (not_lt.mpr hitem.2.2)]
    simp

/-! ## Summary-level lemmas -/

theorem zipMap_fst_counts (c : String) : ∀ (invs : List Invoice),
    (((invs.map perRecordResult).zip invs).map (fun p => p.1.errors.count c)).sum =
      (invs.map (fun inv => (perRecordErrors inv).count c)).sum := by
  intro invs
  induction invs with
  | nil => simp
  | cons inv rest ih =>
    simp only [List.map_cons, List.zip_cons_cons, List.sum_cons, ih]
    rfl

theorem validate_error_counts (invs : List Invoice) (c : String) :
    (validate_invoices invs).2.error_counts c =
      ((validate_invoices invs).1.map (fun r => r.errors.count c)).sum := by
  unfold validate_invoices
  simp only
  have h1 := dupPass_counter ((invs.map perRecordResult).zip invs) []
    (firstPassCounter invs) c
  have h2 := firstPassCounter_apply invs c
  have h3 := zipMap_fst_counts c invs
  omega

theorem results_errors_nodup {invs : List Invoice} {r : InvoiceValidationResult}
    (h : r ∈ (validate_invoices invs).1) : r.errors.Nodup := by
  rcases results_shape h with ⟨inv, _, rfl | rfl⟩
  · exact nodup_perRecordErrors inv
  · exact nodup_perRecord_dup inv

theorem sum_count_eq_countP (c : String) : ∀ (rs : List InvoiceValidationResult),
    (∀ r ∈ rs, r.errors.Nodup) →
    (rs.map (fun r => r.errors.count c)).sum = rs.countP (fun r => c ∈ r.errors) := by
  intro rs
  induction rs with
  | nil => intro _; simp
  | cons r rest ih =>
    intro h
    have hr : r.errors.Nodup := h r (by simp)
    have hrest := ih (fun q hq => h q (by simp [hq]))
    simp only [List.map_cons, List.sum_cons, List.countP_cons, hrest]
    by_cases hmem : c ∈ r.errors
    · have hle := List.nodup_iff_count_le_one.mp hr c
      have hpos : 0 < r.errors.count c := List.count_pos_iff.mpr hmem
      rw [if_pos (decide_eq_true hmem)]
      omega
    · have hzero : r.errors.count c = 0 := by
        rw [List.count_eq_zero]
        exact hmem
      rw [if_neg (by simp [hmem])]
      omega

theorem countP_valid_add (rs : List InvoiceValidationResult) :
    rs.countP (fun r => r.is_valid = true) + rs.countP (fun r => r.is_valid = false) =
      rs.length := by
  induction rs with
  | nil => simp
  | cons r rest ih =>
    simp only [List.countP_cons, List.length_cons]
    cases hv : r.is_valid <;> simp [hv] at ih ⊢ <;> omega

theorem countP_not_valid_eq (rs : List InvoiceValidationResult) :
    rs.countP (fun r => !r.is_valid) = rs.countP (fun r => r.is_valid = false) :=
  List.countP_congr (fun r _ => by cases hv : r.is_valid <;> simp [hv])

/-! ## The claims -/

/-- C1 (code_bug evidence): extraction does *not* always succeed — for
every input text, `extract_invoice_number` raises
`NameError: name 're' is not defined`, because `extractor.py` never imports
`re` at module level (each sibling extractor does `import re` locally,
which does not create a module-level binding) yet the call
`find_first_match(patterns, text, flags=re.IGNORECASE)` must resolve the
global `re` before searching.  `extract_invoice_from_pdf` calls this
function unconditionally (line 243), so the extraction pipeline raises on
every input instead of returning a fallback-completed record as the spec
claims. -/
theorem C1_extract_invoice_number_always_raises (text : String) :
    extract_invoice_number text =
      Except.error "NameError: name re is not defined" := rfl

/-- C2: in the duplicate-detection pass (run in input order over the key
`(seller_name.lower(), invoice_number, invoice_date)`), the first record
with a given key keeps its per-record result unchanged, and every later
record with the same key gets `anomaly: duplicate_invoice` appended and
`is_valid` forced to `false` (`flagDup`), even if its per-record errors
were empty. -/
theorem C2_duplicate_pass_flags_later_records (invs : List Invoice) (i : Nat)
    (hi : i < invs.length) :
    (validate_invoices invs).1[i]? = some
      (if dupKey invs[i] ∈ (invs.take i).map dupKey
       then flagDup (perRecordResult invs[i])
       else perRecordResult invs[i]) := by
  unfold validate_invoices
  simp only
  rw [dupPass_getElem?, pairs_getElem?, List.getElem?_eq_getElem hi]
  simp only [Option.map_some']
  rw [pairs_take_keys]
  simp [List.not_mem_nil, false_or]

/-- Witness for C2 at a concrete duplicate pair: the record at index 1 of
`[invOk, invBadCurrency]` (same duplicate key) is the flagged one. -/
theorem C2_duplicate_pass_flags_later_records_witness :
    (validate_invoices [invOk, invBadCurrency]).1[1]? = some
      (if dupKey ([invOk, invBadCurrency])[1] ∈
          (([invOk, invBadCurrency]).take 1).map dupKey
       then flagDup (perRecordResult ([invOk, invBadCurrency])[1])
       else perRecordResult ([invOk, invBadCurrency])[1]) :=
  C2_duplicate_pass_flags_later_records [invOk, invBadCurrency] 1 (by decide)

/-- C3: after both passes, every returned result is valid exactly when its
error list is empty. -/
theorem C3_is_valid_iff_no_errors (invs : List Invoice)
    (r : InvoiceValidationResult) (h : r ∈ (validate_invoices invs).1) :
    r.is_valid = true ↔ r.errors = [] := by
  rcases results_shape h with ⟨inv, _, rfl | rfl⟩
  · simp [perRecordResult]
  · simp [perRecordResult, flagDup]

/-- Witness for C3 at a concrete input. -/
theorem C3_is_valid_iff_no_errors_witness :
    perRecordResult invOk ∈ (validate_invoices [invOk]).1 ∧
      ((perRecordResult invOk).is_valid = true ↔ (perRecordResult invOk).errors = []) :=
  ⟨List.mem_singleton_self (perRecordResult invOk),
   C3_is_valid_iff_no_errors [invOk] (perRecordResult invOk)
     (List.mem_singleton_self (perRecordResult invOk))⟩

/-- C4: the summary counts are consistent: `valid + invalid = total`,
`total` is the number of input records, and `invalid`/`valid` count the
results with `is_valid` false/true. -/
theorem C4_summary_counts_consistent (invs : List Invoice) :
    (validate_invoices invs).2.valid_invoices + (validate_invoices invs).2.invalid_invoices =
        (validate_invoices invs).2.total_invoices ∧
      (validate_invoices invs).2.total_invoices = invs.length ∧
      (validate_invoices invs).2.invalid_invoices =
        (validate_invoices invs).1.countP (fun r => r.is_valid = false) ∧
      (validate_invoices invs).2.valid_invoices =
        (validate_invoices invs).1.countP (fun r => r.is_valid = true) := by
  unfold validate_invoices
  simp only
  have hlen : (dupPass [] (firstPassCounter invs)
      ((invs.map perRecordResult).zip invs)).1.length = invs.length := by
    rw [dupPass_length]
    simp
  have hsplit := countP_valid_add
    (dupPass [] (firstPassCounter invs) ((invs.map perRecordResult).zip invs)).1
  have hne := countP_not_valid_eq
    (dupPass [] (firstPassCounter invs) ((invs.map perRecordResult).zip invs)).1
  refine ⟨?_, ?_, ?_, ?_⟩ <;> omega

/-- C5: for every error code, the summary counter equals the number of
results whose error list contains the code — the per-occurrence increments
coincide with per-result containment because no result ever lists the same
code twice. -/
theorem C5_error_counts_match_results (invs : List Invoice) (c : String) :
    (validate_invoices invs).2.error_counts c =
      (validate_invoices invs).1.countP (fun r => c ∈ r.errors) := by
  rw [validate_error_counts]
  exact sum_count_eq_countP c _ (fun r hr => results_errors_nodup hr)

/-! ## Helper lemmas for the remaining claims -/

theorem invalid_eq_countP (invs : List Invoice) :
    (validate_invoices invs).2.invalid_invoices =
      (validate_invoices invs).1.countP (fun r => !r.is_valid) := rfl

theorem validate_pair_results (A B : Invoice) (hkey : dupKey A = dupKey B) :
    (validate_invoices [A, B]).1 = [perRecordResult A, flagDup (perRecordResult B)] := by
  unfold validate_invoices
  simp [dupPass, ← hkey]

/-- C6 counterexample: June 15, 2100 lies within year 2100, yet the
validator emits `format_error: invoice_date_out_of_range` for it, because
the upper bound of the window is `date(2100, 1, 1)`, not the end of year
2100.  This refutes the claim's "no out-of-range error is emitted for any
date within year 2100". -/
theorem C6_year_2100_counterexample :
    invYear2100.invoice_date.year = 2100 ∧
      "format_error: invoice_date_out_of_range" ∈
        _check_format_and_ranges invYear2100 := by
  refine ⟨rfl, ?_⟩
  with_unfolding_all decide

/-- C6 amended: `format_error: invoice_date_out_of_range` is emitted
exactly when `invoice_date` lies outside the window from `date(2000,1,1)`
to `date(2100,1,1)` inclusive, and likewise for a present `due_date`; the
upper bound is January 1 of 2100, so later dates of year 2100 are out of
range. -/
theorem C6_date_window_amended (inv : Invoice) :
    ("format_error: invoice_date_out_of_range" ∈ _check_format_and_ranges inv ↔
      ¬ (PyDate.le minDate inv.invoice_date ∧ PyDate.le inv.invoice_date maxDate)) ∧
    (∀ dd, inv.due_date = some dd →
      ("format_error: due_date_out_of_range" ∈ _check_format_and_ranges inv ↔
        ¬ (PyDate.le minDate dd ∧ PyDate.le dd maxDate))) ∧
    (inv.due_date = none →
      "format_error: due_date_out_of_range" ∉ _check_format_and_ranges inv) :=
  ⟨format_invoice_date_iff inv, fun dd hdd => format_due_date_iff inv dd hdd,
   fun hdd => format_due_date_none inv hdd⟩

/-- Witness for C6 (amended) at a concrete invoice with a due date. -/
theorem C6_date_window_amended_witness :
    ("format_error: invoice_date_out_of_range" ∈ _check_format_and_ranges invWithDue ↔
      ¬ (PyDate.le minDate invWithDue.invoice_date ∧
         PyDate.le invWithDue.invoice_date maxDate)) ∧
    ("format_error: due_date_out_of_range" ∈ _check_format_and_ranges invWithDue ↔
      ¬ (PyDate.le minDate { year := 2024, month := 3, day := 1 } ∧
         PyDate.le { year := 2024, month := 3, day := 1 } maxDate)) :=
  ⟨(C6_date_window_amended invWithDue).1,
   (C6_date_window_amended invWithDue).2.1 { year := 2024, month := 3, day := 1 } rfl⟩

/-- C7 counterexample: `invOk` and `invBadCurrency` share a duplicate key
but differ in content; `invOk` passes all per-record checks while
`invBadCurrency` fails the currency check.  Swapping the input order
changes the total invalid count (1 versus 2), refuting "the summary's
total invalid count is unchanged between the two orders". -/
theorem C7_invalid_count_counterexample :
    dupKey invOk = dupKey invBadCurrency ∧ invOk ≠ invBadCurrency ∧
    (validate_invoices [invOk, invBadCurrency]).2.invalid_invoices = 1 ∧
    (validate_invoices [invBadCurrency, invOk]).2.invalid_invoices = 2 := by
  have hkey : dupKey invOk = dupKey invBadCurrency := by decide
  have hOk : perRecordErrors invOk = [] := by with_unfolding_all decide
  have hBad : perRecordErrors invBadCurrency = ["format_error: currency_invalid"] := by
    with_unfolding_all decide
  refine ⟨hkey, by decide, ?_, ?_⟩
  · rw [invalid_eq_countP, validate_pair_results _ _ hkey]
    simp [List.countP_cons, perRecordResult, flagDup, hOk, hBad]
  · rw [invalid_eq_countP, validate_pair_results _ _ hkey.symm]
    simp [List.countP_cons, perRecordResult, flagDup, hOk, hBad]

/-- C7 amended: for records with the same duplicate key, the
`anomaly: duplicate_invoice` error always lands on the second record in
input order (so swapping the order changes which record is flagged), and
the total invalid count is unchanged between the two orders precisely when
A and B agree on whether they pass the per-record checks. -/
theorem C7_order_swap_amended (A B : Invoice) (hkey : dupKey A = dupKey B) :
    (validate_invoices [A, B]).1 = [perRecordResult A, flagDup (perRecordResult B)] ∧
    (validate_invoices [B, A]).1 = [perRecordResult B, flagDup (perRecordResult A)] ∧
    dupError ∈ (flagDup (perRecordResult B)).errors ∧
    dupError ∉ (perRecordResult A).errors ∧
    dupError ∈ (flagDup (perRecordResult A)).errors ∧
    dupError ∉ (perRecordResult B).errors ∧
    ((perRecordErrors A = [] ↔ perRecordErrors B = []) →
      (validate_invoices [A, B]).2.invalid_invoices =
        (validate_invoices [B, A]).2.invalid_invoices) := by
  refine ⟨validate_pair_results A B hkey, validate_pair_results B A hkey.symm,
    by simp [flagDup], dupError_notin_perRecord A,
    by simp [flagDup], dupError_notin_perRecord B, ?_⟩
  intro hagree
  rw [invalid_eq_countP, invalid_eq_countP, validate_pair_results A B hkey,
    validate_pair_results B A hkey.symm]
  by_cases hA : perRecordErrors A = []
  · have hB := hagree.mp hA
    simp [List.countP_cons, perRecordResult, flagDup, hA, hB]
  · have hB : ¬ perRecordErrors B = [] := fun h => hA (hagree.mpr h)
    simp [List.countP_cons, perRecordResult, flagDup, hA, hB]

/-- Witness for C7 (amended) at the concrete duplicate pair. -/
theorem C7_order_swap_amended_witness :
    (validate_invoices [invOk, invBadCurrency]).1 =
      [perRecordResult invOk, flagDup (perRecordResult invBadCurrency)] ∧
    (validate_invoices [invBadCurrency, invOk]).1 =
      [perRecordResult invBadCurrency, flagDup (perRecordResult invOk)] ∧
    dupError ∈ (flagDup (perRecordResult invBadCurrency)).errors ∧
    dupError ∉ (perRecordResult invOk).errors ∧
    dupError ∈ (flagDup (perRecordResult invOk)).errors ∧
    dupError ∉ (perRecordResult invBadCurrency).errors ∧
    ((perRecordErrors invOk = [] ↔ perRecordErrors invBadCurrency = []) →
      (validate_invoices [invOk, invBadCurrency]).2.invalid_invoices =
        (validate_invoices [invBadCurrency, invOk]).2.invalid_invoices) :=
  C7_order_swap_amended invOk invBadCurrency (by decide)

/-- C9: for a record with line items, `business_rule_failed:
line_items_net_mismatch` is emitted iff the absolute difference between
the sum of line totals and `net_total` exceeds the 0.05 tolerance; in
particular a sum of exactly `net_total + 0.05` does not trigger it while
`net_total + 0.0501` does (stated over exact rationals). -/
theorem C9_net_mismatch_tolerance (inv : Invoice) (hitems : inv.line_items ≠ []) :
    ("business_rule_failed: line_items_net_mismatch" ∈ _check_business_rules inv ↔
      |sumLineTotals inv.line_items - inv.net_total| > (5 : ℚ) / 100) ∧
    (sumLineTotals inv.line_items = inv.net_total + (5 : ℚ) / 100 →
      "business_rule_failed: line_items_net_mismatch" ∉ _check_business_rules inv) ∧
    (sumLineTotals inv.line_items = inv.net_total + (501 : ℚ) / 10000 →
      "business_rule_failed: line_items_net_mismatch" ∈ _check_business_rules inv) := by
  refine ⟨business_mismatch_iff inv hitems, ?_, ?_⟩
  · intro hsum hmem
    have h := (business_mismatch_iff inv hitems).mp hmem
    rw [hsum] at h
    have heq : inv.net_total + (5 : ℚ) / 100 - inv.net_total = (5 : ℚ) / 100 := by ring
    rw [heq] at h
    rw [abs_of_pos (by norm_num)] at h
    exact absurd h (by norm_num)
  · intro hsum
    refine (business_mismatch_iff inv hitems).mpr ?_
    rw [hsum]
    have heq : inv.net_total + (501 : ℚ) / 10000 - inv.net_total = (501 : ℚ) / 10000 := by
      ring
    rw [heq, abs_of_pos (by norm_num)]
    norm_num

/-- Witness for C9 at `invBoundary`, whose line items sum to exactly
`net_total + 0.05`. -/
theorem C9_net_mismatch_tolerance_witness :
    ("business_rule_failed: line_items_net_mismatch" ∈ _check_business_rules invBoundary ↔
      |sumLineTotals invBoundary.line_items - invBoundary.net_total| > (5 : ℚ) / 100) ∧
    (sumLineTotals invBoundary.line_items = invBoundary.net_total + (5 : ℚ) / 100 →
      "business_rule_failed: line_items_net_mismatch" ∉
        _check_business_rules invBoundary) ∧
    (sumLineTotals invBoundary.line_items = invBoundary.net_total + (501 : ℚ) / 10000 →
      "business_rule_failed: line_items_net_mismatch" ∈
        _check_business_rules invBoundary) :=
  C9_net_mismatch_tolerance invBoundary (by decide)

/-- C10: any invoice whose line items were built through the pydantic
`LineItem` constructor (whose `ge=0` field constraints reject negative
values) can never receive a `format_error: line_<i>_*_negative` error:
the validator's negative-line-item branch is unreachable for
model-constructed records. -/
theorem C10_model_line_items_no_negative_errors (inv : Invoice)
    (hcon : ∀ li ∈ inv.line_items,
      mkLineItem li.description li.quantity li.unit_price li.line_total = Except.ok li)
    (i : Nat) :
    lineNegErr i "_quantity_negative" ∉ _check_format_and_ranges inv ∧
    lineNegErr i "_unit_price_negative" ∉ _check_format_and_ranges inv ∧
    lineNegErr i "_line_total_negative" ∉ _check_format_and_ranges inv := by
  have hnn : ∀ li ∈ inv.line_items,
      0 ≤ li.quantity ∧ 0 ≤ li.unit_price ∧ 0 ≤ li.line_total :=
    fun li hli => mkLineItem_ok_nonneg (hcon li hli)
  have hnil := lineRange_nil_of_nonneg inv.line_items hnn 0
  refine ⟨?_, ?_, ?_⟩ <;> intro hmem <;>
    [skip; skip; skip] <;>
  · unfold _check_format_and_ranges at hmem
    rw [hnil, List.append_nil] at hmem
    have h6 := (format_fixed_sublist inv).subset hmem
    simp only [List.mem_cons, List.not_mem_nil, or_false] at h6
    rcases h6 with h | h | h | h | h | h <;>
      exact absurd (h ▸ lineNegErr_get14 i _) (by decide)

/-- Witness for C10 at a concrete invoice with one constructor-built line
item. -/
theorem C10_model_line_items_no_negative_errors_witness :
    (∀ li ∈ invModelItems.line_items,
      mkLineItem li.description li.quantity li.unit_price li.line_total =
        Except.ok li) ∧
    (lineNegErr 0 "_quantity_negative" ∉ _check_format_and_ranges invModelItems ∧
     lineNegErr 0 "_unit_price_negative" ∉ _check_format_and_ranges invModelItems ∧
     lineNegErr 0 "_line_total_negative" ∉ _check_format_and_ranges invModelItems) := by
  have hcon : ∀ li ∈ invModelItems.line_items,
      mkLineItem li.description li.quantity li.unit_price li.line_total =
        Except.ok li := by
    with_unfolding_all decide
  exact ⟨hcon, C10_model_line_items_no_negative_errors invModelItems hcon 0⟩

set_option maxRecDepth 4000 in
/-- C8 counterexample: in the line `Widget  3  5.00  0` the last segment
`0` is parseable (`parse_float_safe "0" = some 0`), yet the extracted
item's `line_total` is `3 × 5 = 15`, not `0`: Python's
`parse_float_safe(parts[-1]) or (qty * unit)` also falls back when the
parse result is the falsy float `0.0`.  This refutes "falling back to
quantity × unit_price only when the last segment is unparseable". -/
theorem C8_zero_total_counterexample :
    parse_float_safe "0" = some 0 ∧
    extract_line_items c8Text = Except.ok
      [{ description := "Widget", quantity := 3, unit_price := 5,
         line_total := 15 : LineItem }] ∧
    (15 : ℚ) = 3 * 5 ∧ (15 : ℚ) ≠ 0 := by
  refine ⟨?_, ?_, by norm_num, by norm_num⟩
  · with_unfolding_all decide
  · with_unfolding_all decide

/-- C8 amended: a processed line that is not a totals line and splits into
at least 3 segments yields an item whose `quantity`/`unit_price` are the
second/third segments parsed with fallback 0.0, and whose `line_total` is
the last segment parsed, falling back to `quantity × unit_price` when the
last segment is unparseable *or parses to the falsy float `0.0`*
(`pyOrFloat` is Python's `x or default`); the non-negativity hypotheses
keep the pydantic constructor from raising. -/
theorem C8_line_item_fields_amended (line : String) (rest : List String)
    (p0 p1 p2 : List Char) (ps : List (List Char))
    (hno : (pyContains "subtotal" (pyLower line) || pyContains "net total" (pyLower line) ||
      pyContains "total" (pyLower line)) = false)
    (hsplit : splitWsRuns (pyStrip line.data) = p0 :: p1 :: p2 :: ps)
    (hdesc : String.mk p0 ≠ "")
    (hq : 0 ≤ pyOrFloat (parse_float_safe (String.mk p1)) 0)
    (hu : 0 ≤ pyOrFloat (parse_float_safe (String.mk p2)) 0)
    (ht : 0 ≤ pyOrFloat (parse_float_safe (String.mk (List.getLastD ps p2)))
      (pyOrFloat (parse_float_safe (String.mk p1)) 0 *
       pyOrFloat (parse_float_safe (String.mk p2)) 0)) :
    lineItemsLoop (line :: rest) = (lineItemsLoop rest).map (fun items =>
      ({ description := String.mk p0
         quantity := pyOrFloat (parse_float_safe (String.mk p1)) 0
         unit_price := pyOrFloat (parse_float_safe (String.mk p2)) 0
         line_total := pyOrFloat (parse_float_safe (String.mk (List.getLastD ps p2)))
           (pyOrFloat (parse_float_safe (String.mk p1)) 0 *
            pyOrFloat (parse_float_safe (String.mk p2)) 0) } : LineItem) :: items) := by
  rw [lineItemsLoop]
  rw [if_neg (by rw [hno]; simp)]
  rw [hsplit]
  simp only
  rw [if_pos hdesc]
  unfold mkLineItem
  rw [if_neg (not_lt.mpr hq), if_neg (not_lt.mpr hu), if_neg (not_lt.mpr ht)]
  rw [validate_line_total_id]
  cases h : lineItemsLoop rest with
  | error e => simp [Except.map]
  | ok items => simp [Except.map]

set_option maxRecDepth 4000 in
/-- Witness for C8 (amended) at the concrete line `Widget  3  5.00  0`. -/
theorem C8_line_item_fields_amended_witness :
    lineItemsLoop [c8Line] = (lineItemsLoop []).map (fun items =>
      ({ description := String.mk "Widget".data
         quantity := pyOrFloat (parse_float_safe (String.mk "3".data)) 0
         unit_price := pyOrFloat (parse_float_safe (String.mk "5.00".data)) 0
         line_total := pyOrFloat (parse_float_safe (String.mk
             (List.getLastD ["0".data] "5.00".data)))
           (pyOrFloat (parse_float_safe (String.mk "3".data)) 0 *
            pyOrFloat (parse_float_safe (String.mk "5.00".data)) 0) } : LineItem) ::
        items) :=
  C8_line_item_fields_amended c8Line [] "Widget".data "3".data "5.00".data ["0".data]
    (by with_unfolding_all decide)
    (by with_unfolding_all decide)
    (by with_unfolding_all decide)
    (by with_unfolding_all decide)
    (by with_unfolding_all decide)
    (by with_unfolding_all decide)
